import Mathlib

/-! Image reference resolution (`image/load.go`).

A shallow embedding of the loader of the `meme` command: the registry of
embedded images built by `init`, the four-way dispatch of `Load`, and the
fetch functions behind it.

Conventions.

* Go strings are modelled by `String` (valid UTF-8 text), byte slices by lists
  of `Fin 256`.
* Everything outside the process (HTTP, standard input, the filesystem, the
  embedded catalog) and every library routine whose result depends on the
  environment is an oracle of `Env`.  A Go call returning `(v, err)` is an
  oracle returning `Except String v`.
* A function that performs I/O returns a `Run`: the list of external
  operations it performed, in order, and either its value or the failure
  that stopped it.
-/

namespace Meme

deriving instance DecidableEq for Except

/-- One byte. -/
abbrev Byte := Fin 256

/-- A Go `[]byte`. -/
abbrev Bytes := List Byte

/-- The part of an `*http.Response` the loader looks at: the status code and
what `ioutil.ReadAll(res.Body)` yields. -/
structure Response where
  StatusCode : Int
  Body : Except String Bytes
  deriving DecidableEq

/-- The surroundings of one run of the program. -/
structure Env where
  /-- The constant `data.ImagePath`. -/
  ImagePath : String
  /-- The constant `data.ImageExtension`. -/
  ImageExtension : String
  /-- The names of the entries `data.Files.ReadDir` lists for a directory. -/
  ReadDir : String → Except String (List String)
  /-- The embedded read `data.Files.ReadFile`. -/
  EmbedReadFile : String → Except String Bytes
  /-- The library function `filepath.Base`. -/
  Base : String → String
  /-- The library function `path.Join`, at two arguments. -/
  Join : String → String → String
  /-- The request `http.Get`. -/
  Get : String → Except String Response
  /-- The content `ioutil.ReadAll(os.Stdin)` yields. -/
  Stdin : Except String Bytes
  /-- The library function `homedir.Expand`. -/
  Expand : String → Except String String
  /-- Whether `os.Stat` returns a nil error for a path. -/
  Stat : String → Bool
  /-- The read `ioutil.ReadFile`. -/
  ReadFile : String → Except String Bytes

/-- The external operations of the loader. -/
inductive Event where
  /-- Call of `data.Files.ReadDir(dir)`. -/
  | embedList (dir : String)
  /-- Call of `data.Files.ReadFile(path)`. -/
  | embedRead (path : String)
  /-- Call of `http.Get(url)`. -/
  | httpGet (url : String)
  /-- Call of `ioutil.ReadAll(res.Body)` on the response to `url`. -/
  | bodyRead (url : String)
  /-- Call of `ioutil.ReadAll(os.Stdin)`. -/
  | stdinRead
  /-- Call of `homedir.Expand(path)`. -/
  | expand (path : String)
  /-- Call of `os.Stat(path)`. -/
  | stat (path : String)
  /-- Call of `ioutil.ReadFile(path)`. -/
  | fileRead (path : String)
  deriving DecidableEq, Repr

/-- The operations that obtain image data: an HTTP request or body read, a
read of standard input, a file read, an embedded read. -/
def Event.isFetch : Event → Bool
  | .embedRead _ => true
  | .httpGet _ => true
  | .bodyRead _ => true
  | .stdinRead => true
  | .fileRead _ => true
  | .embedList _ => false
  | .expand _ => false
  | .stat _ => false

/-- The report of a halted operation: the message the caller passed to
`output.Error` or `output.OnError`, and the underlying Go error if any. -/
structure Failure where
  text : String
  cause : Option String
  deriving DecidableEq, Repr

/-- The outcome of an effectful function: the operations performed, then the
returned value or the failure that halted the program. -/
structure Run (α : Type) where
  trace : List Event
  result : Except Failure α

/-- Return without any operation. -/
def Run.pure {α : Type} (a : α) : Run α := ⟨[], .ok a⟩

/-- Sequencing: a halt in the first part skips the second. -/
def Run.bind {α β : Type} (x : Run α) (f : α → Run β) : Run β :=
  match x.result with
  | .error e => ⟨x.trace, .error e⟩
  | .ok a => ⟨x.trace ++ (f a).trace, (f a).result⟩

/-- The same run with the value transformed. -/
def Run.map {α β : Type} (f : α → β) (x : Run α) : Run β :=
  x.bind (fun a => Run.pure (f a))

instance : Monad Run where
  pure := Run.pure
  bind := Run.bind

/-- Perform one external operation. -/
def perform (e : Event) : Run Unit := ⟨[e], .ok ()⟩

/-- How many `http.Get` calls a trace holds. -/
def getCount (t : List Event) : Nat :=
  t.countP (fun e => match e with | .httpGet _ => true | _ => false)

namespace output

/-- Modelled from the spec: `output.Error` (package `output` is not among the
sources) reports the message and halts; nothing after the call runs. -/
def Error {α : Type} (text : String) : Run α := ⟨[], .error ⟨text, none⟩⟩

/-- Modelled from the spec: `output.OnError(err, text)` (package `output` is
not among the sources) halts with the message when `err` is not nil and does
nothing otherwise.  It is fused here with the call that produced `err`, whose
value it passes on. -/
def OnError {α : Type} (r : Except String α) (text : String) : Run α :=
  match r with
  | .ok v => Run.pure v
  | .error err => ⟨[], .error ⟨text, some err⟩⟩

end output

namespace stream

/-- Modelled from the spec: `stream.Stream` (package `image/stream` is not
among the sources), the fully buffered bytes of the image. -/
structure Stream where
  bytes : Bytes
  deriving DecidableEq, Repr

/-- Modelled from the spec: `stream.NewStream` wraps what the reader yields. -/
def NewStream (s : Bytes) : Stream := ⟨s⟩

end stream

namespace strings

/-- The library function `strings.HasPrefix`. -/
def HasPrefix (s pre : String) : Bool := pre.data.isPrefixOf s.data

/-- The library function `strings.TrimSuffix`. -/
def TrimSuffix (s suffix : String) : String :=
  if suffix.data.isSuffixOf s.data then
    ⟨s.data.take (s.data.length - suffix.data.length)⟩
  else s

end strings

/-- The Go `map[string]string` of the package variable `imageMap`: the
bindings, at most one per key. -/
abbrev ImageMap := List (String × String)

/-- The lookup `imageMap[id]` with its `ok` flag. -/
def ImageMap.get (m : ImageMap) (id : String) : Option String :=
  (m.find? (fun e => e.1 == id)).map (fun e => e.2)

/-- The assignment `imageMap[id] = v`. -/
def ImageMap.set (m : ImageMap) (id v : String) : ImageMap :=
  (id, v) :: m.filter (fun e => !(e.1 == id))

/-- The keys of the map. -/
def ImageMap.keys (m : ImageMap) : List String := m.map (fun e => e.1)

/-- The field of `cli.Options` the loader reads. -/
structure Options where
  Image : String

/-- The package initialiser: `imageMap`, empty before, once `init` has run. -/
def init (w : Env) : Run ImageMap := do
  perform (.embedList w.ImagePath)
  let images ← output.OnError (w.ReadDir w.ImagePath) "Could not read embedded images"
  pure (images.foldl
    (fun imageMap image =>
      let id := strings.TrimSuffix (w.Base image) w.ImageExtension
      imageMap.set id (w.Join w.ImagePath image))
    [])

/-- Return true if the passed string is an embedded asset id. -/
def isAsset (imageMap : ImageMap) (id : String) : Bool :=
  (imageMap.get id).isSome

/-- Load an embedded asset by id; a missing id reads the path `""`. -/
def loadAsset (w : Env) (imageMap : ImageMap) (id : String) : Run Bytes := do
  let image := (imageMap.get id).getD ""
  perform (.embedRead image)
  let st ← output.OnError (w.EmbedReadFile image) "Could not read embedded image"
  pure st

/-- Return true if the passed string is an image URL. -/
def isURL (url : String) : Bool :=
  strings.HasPrefix url "http"

/-- Download the image at the passed URL.  The deferred `res.Body.Close()`
releases the connection and leaves the result as it is. -/
def downloadURL (w : Env) (url : String) : Run Bytes := do
  perform (.httpGet url)
  let res ← output.OnError (w.Get url) "Request error"
  if res.StatusCode != 200 then
    output.Error "Could not access URL"
  else do
    perform (.bodyRead url)
    let st ← output.OnError res.Body "Could not read response body"
    pure st

/-- Return true if the passed string is a file that exists on the local
filesystem. -/
def isLocalFile (w : Env) (path : String) : Run Bool := do
  perform (.expand path)
  let path ← output.OnError (w.Expand path) "Could not expand path"
  perform (.stat path)
  pure (w.Stat path)

/-- Read a file on the local filesystem. -/
def readFile (w : Env) (path : String) : Run Bytes := do
  perform (.expand path)
  let path ← output.OnError (w.Expand path) "Could not expand path"
  perform (.fileRead path)
  let st ← output.OnError (w.ReadFile path) "Could not read local file"
  pure st

/-- Return true if the passed string is `-`. -/
def isStdin (path : String) : Bool :=
  path == "-"

/-- Read the image from stdin. -/
def readStdin (w : Env) : Run Bytes := do
  perform .stdinRead
  let st ← output.OnError w.Stdin "Could not read stdin"
  pure st

/-- Load an image from the passed string or stdin. -/
def Load (w : Env) (imageMap : ImageMap) (opt : Options) : Run stream.Stream := do
  let s ←
    if isURL opt.Image then
      downloadURL w opt.Image
    else if isStdin opt.Image then
      readStdin w
    else if isAsset imageMap opt.Image then
      loadAsset w imageMap opt.Image
    else do
      let b ← isLocalFile w opt.Image
      if b then
        readFile w opt.Image
      else
        output.Error "Image not recognised"
  pure (stream.NewStream s)

/-! ### A sample environment

A small concrete environment on which the statements below are evaluated. -/

/-- The bytes of an ASCII text. -/
def ascii (s : String) : Bytes := s.data.map (fun c => Fin.ofNat c.toNat)

/-- The last element of a slash-separated path, as `filepath.Base` computes it
on Unix. -/
def sampleBase (path : String) : String :=
  if path = "" then "."
  else
    let stripped := path.data.reverse.dropWhile (fun c => c == '/')
    let last := stripped.takeWhile (fun c => c != '/')
    if last = [] then "/" else ⟨last.reverse⟩

/-- Home-directory expansion in the manner of `homedir.Expand`, for a user
whose home is `/home/meme`: a path not starting with `~` is returned as it is,
`~` and `~/...` are expanded, and the `~user` form is an error. -/
def sampleExpand (path : String) : Except String String :=
  match path.data with
  | '~' :: rest =>
    match rest with
    | [] => .ok "/home/meme"
    | '/' :: _ => .ok ("/home/meme" ++ ⟨rest⟩)
    | _ => .error "cannot expand user-specific home dir"
  | _ => .ok path

/-- An environment with three embedded images (one of them named `-.jpg`, one
of them empty), two reachable URLs, `PNGDATA` on standard input, and local
files `/home/meme/photos/cat.png`, `aliens` and `-`. -/
def sampleEnv : Env where
  ImagePath := "images"
  ImageExtension := ".jpg"
  ReadDir := fun dir =>
    if dir = "images" then .ok ["-.jpg", "aliens.jpg", "empty.jpg"]
    else .error "file does not exist"
  EmbedReadFile := fun path =>
    if path = "images/aliens.jpg" then .ok (ascii "ALIENS")
    else if path = "images/-.jpg" then .ok (ascii "DASH")
    else if path = "images/empty.jpg" then .ok []
    else .error "file does not exist"
  Base := sampleBase
  -- `path.Join` of a clean directory and a plain entry name
  Join := fun dir name => dir ++ "/" ++ name
  Get := fun url =>
    if url = "https://example.com/img.png" then .ok ⟨200, .ok (ascii "JPEGDATA")⟩
    else if url = "https://example.com/missing.png" then .ok ⟨404, .ok (ascii "Not Found")⟩
    else .error "no such host"
  Stdin := .ok (ascii "PNGDATA")
  Expand := sampleExpand
  Stat := fun path => path = "/home/meme/photos/cat.png" || path = "aliens" || path = "-"
  ReadFile := fun path =>
    if path = "/home/meme/photos/cat.png" then .ok (ascii "CATDATA")
    else if path = "aliens" then .ok (ascii "LOCALALIENS")
    else if path = "-" then .ok (ascii "LOCALDASH")
    else .error "no such file or directory"

/-- The registry `init` builds in the sample environment. -/
def sampleMap : ImageMap :=
  [("empty", "images/empty.jpg"), ("aliens", "images/aliens.jpg"), ("-", "images/-.jpg")]

/-! ### Basic facts about runs -/

theorem Run.bind_eq {α β : Type} (x : Run α) (f : α → Run β) :
    (x >>= f) = Run.bind x f := rfl

theorem Run.pure_eq {α : Type} (a : α) : (Pure.pure a : Run α) = Run.pure a := rfl

theorem Run.bind_assoc {α β γ : Type} (x : Run α) (f : α → Run β) (g : β → Run γ) :
    Run.bind (Run.bind x f) g = Run.bind x (fun a => Run.bind (f a) g) := by
  obtain ⟨t, r⟩ := x
  cases r with
  | error e => rfl
  | ok a =>
    simp only [Run.bind]
    cases (f a).result with
    | error e => simp
    | ok b => simp

theorem Load_eq (w : Env) (imageMap : ImageMap) (opt : Options) :
    Load w imageMap opt =
      Run.map stream.NewStream
        (if isURL opt.Image then downloadURL w opt.Image
         else if isStdin opt.Image then readStdin w
         else if isAsset imageMap opt.Image then loadAsset w imageMap opt.Image
         else Run.bind (isLocalFile w opt.Image) (fun b =>
           if b then readFile w opt.Image else output.Error "Image not recognised")) := by
  unfold Load
  simp only [Run.bind_eq, Run.pure_eq, Run.map]
  split_ifs
  · rfl
  · rfl
  · rfl
  · rw [Run.bind_assoc]
    congr 1
    funext b
    cases b <;> rfl

theorem isURL_iff (s : String) : isURL s = true ↔ ∃ t : String, s = "http" ++ t := by
  unfold isURL strings.HasPrefix
  rw [List.isPrefixOf_iff_prefix]
  constructor
  · rintro ⟨t, ht⟩
    refine ⟨⟨t⟩, ?_⟩
    apply String.ext
    rw [String.data_append, ← ht]
  · rintro ⟨t, rfl⟩
    exact ⟨t.data, by rw [String.data_append]⟩

theorem isStdin_iff (s : String) : isStdin s = true ↔ s = "-" := by
  unfold isStdin
  simp

theorem isAsset_iff (imageMap : ImageMap) (id : String) :
    isAsset imageMap id = true ↔ id ∈ imageMap.keys := by
  unfold isAsset ImageMap.get ImageMap.keys
  induction imageMap with
  | nil => simp
  | cons e rest ih =>
    by_cases h : e.1 = id
    · simp [List.find?, h]
    · have h2 : ¬ id = e.1 := fun hh => h hh.symm
      have h3 : (e.1 == id) = false := by simpa using h
      simp only [List.find?, h3, List.map_cons, List.mem_cons, h2, false_or]
      exact ih

theorem downloadURL_trace (w : Env) (url : String) :
    ∀ e ∈ (downloadURL w url).trace, e = Event.httpGet url ∨ e = Event.bodyRead url := by
  intro e he
  unfold downloadURL at he
  simp only [Run.bind_eq, Run.pure_eq, Run.bind, Run.pure, perform, output.OnError,
    output.Error] at he
  cases hg : w.Get url with
  | error err => simp [hg] at he; exact Or.inl he
  | ok res =>
    by_cases hs : (res.StatusCode != 200) = true
    · simp [hg, hs] at he; exact Or.inl he
    · cases hb : res.Body with
      | error err => simp [hg, hs, hb] at he; tauto
      | ok st => simp [hg, hs, hb] at he; tauto

theorem Run.map_trace {α β : Type} (f : α → β) (x : Run α) :
    (Run.map f x).trace = x.trace := by
  obtain ⟨t, r⟩ := x
  cases r <;> simp [Run.map, Run.bind, Run.pure]

theorem Run.map_result {α β : Type} (f : α → β) (x : Run α) :
    (Run.map f x).result = x.result.map f := by
  obtain ⟨t, r⟩ := x
  cases r <;> simp [Run.map, Run.bind, Run.pure, Except.map]

theorem readStdin_trace (w : Env) : (readStdin w).trace = [Event.stdinRead] := by
  unfold readStdin
  simp only [Run.bind_eq, Run.pure_eq, Run.bind, Run.pure, perform, output.OnError]
  cases w.Stdin <;> simp

theorem loadAsset_trace (w : Env) (imageMap : ImageMap) (id : String) :
    (loadAsset w imageMap id).trace = [Event.embedRead ((imageMap.get id).getD "")] := by
  unfold loadAsset
  simp only [Run.bind_eq, Run.pure_eq, Run.bind, Run.pure, perform, output.OnError]
  cases w.EmbedReadFile ((imageMap.get id).getD "") <;> simp

theorem isLocalFile_ok (w : Env) (p q : String) (h : w.Expand p = .ok q) :
    isLocalFile w p = ⟨[Event.expand p, Event.stat q], .ok (w.Stat q)⟩ := by
  unfold isLocalFile
  simp [Run.bind_eq, Run.pure_eq, Run.bind, Run.pure, perform, output.OnError, h]

theorem isLocalFile_error (w : Env) (p err : String) (h : w.Expand p = .error err) :
    isLocalFile w p = ⟨[Event.expand p], .error ⟨"Could not expand path", some err⟩⟩ := by
  unfold isLocalFile
  simp [Run.bind_eq, Run.pure_eq, Run.bind, Run.pure, perform, output.OnError, h]

theorem isURL_false_of_not_http (s : String) (h : ¬ ∃ t : String, s = "http" ++ t) :
    isURL s = false := by
  cases hu : isURL s with
  | false => rfl
  | true => exact absurd ((isURL_iff s).mp hu) h

theorem isStdin_false_of_ne (s : String) (h : s ≠ "-") : isStdin s = false := by
  cases hs : isStdin s with
  | false => rfl
  | true => exact absurd ((isStdin_iff s).mp hs) h

theorem isAsset_false_of_not_key (imageMap : ImageMap) (id : String)
    (h : id ∉ imageMap.keys) : isAsset imageMap id = false := by
  cases ha : isAsset imageMap id with
  | false => rfl
  | true => exact absurd ((isAsset_iff imageMap id).mp ha) h

/-! ### Classification by `Load` -/

/-- C1: for every string `s` that begins with `http`, every registry and every
environment, `Load` runs exactly `downloadURL s` (wrapped by `NewStream`): its
operations are only the GET and the body read of `s`, so no stdin read, no
embedded read, and no expansion, stat or read of a local file. -/
theorem Load_http_is_downloadURL (w : Env) (imageMap : ImageMap) (s : String)
    (h : ∃ t : String, s = "http" ++ t) :
    Load w imageMap ⟨s⟩ = Run.map stream.NewStream (downloadURL w s) ∧
    (∀ e ∈ (Load w imageMap ⟨s⟩).trace, e = Event.httpGet s ∨ e = Event.bodyRead s) ∧
    Event.stdinRead ∉ (Load w imageMap ⟨s⟩).trace ∧
    (∀ p, Event.embedRead p ∉ (Load w imageMap ⟨s⟩).trace ∧
          Event.expand p ∉ (Load w imageMap ⟨s⟩).trace ∧
          Event.stat p ∉ (Load w imageMap ⟨s⟩).trace ∧
          Event.fileRead p ∉ (Load w imageMap ⟨s⟩).trace) := by
  have hu : isURL s = true := (isURL_iff s).mpr h
  have hL : Load w imageMap ⟨s⟩ = Run.map stream.NewStream (downloadURL w s) := by
    rw [Load_eq]
    simp [hu]
  have ht : ∀ e ∈ (Load w imageMap ⟨s⟩).trace, e = Event.httpGet s ∨ e = Event.bodyRead s := by
    rw [hL, Run.map_trace]
    exact downloadURL_trace w s
  refine ⟨hL, ht, ?_, ?_⟩
  · intro hm
    rcases ht _ hm with h1 | h1 <;> cases h1
  · intro p
    refine ⟨?_, ?_, ?_, ?_⟩ <;> intro hm <;> rcases ht _ hm with h1 | h1 <;> cases h1

/-- C1, at the sample environment and the reference `https://example.com/img.png`. -/
theorem Load_http_is_downloadURL_witness :
    (∃ t : String, "https://example.com/img.png" = "http" ++ t) ∧
    Load sampleEnv sampleMap ⟨"https://example.com/img.png"⟩ =
      Run.map stream.NewStream (downloadURL sampleEnv "https://example.com/img.png") :=
  ⟨⟨"s://example.com/img.png", by decide⟩,
   (Load_http_is_downloadURL sampleEnv sampleMap "https://example.com/img.png"
      ⟨"s://example.com/img.png", by decide⟩).1⟩

/-- C2: for the reference `-`, every registry (also one with the key `-`) and
every environment (also one where a file `-` exists), `Load` runs exactly
`readStdin` (wrapped by `NewStream`): its only operation is the read of
standard input, so no embedded read and no expansion, stat or file read. -/
theorem Load_dash_is_readStdin (w : Env) (imageMap : ImageMap) :
    Load w imageMap ⟨"-"⟩ = Run.map stream.NewStream (readStdin w) ∧
    (Load w imageMap ⟨"-"⟩).trace = [Event.stdinRead] := by
  have hu : isURL "-" = false := by decide
  have hs : isStdin "-" = true := by decide
  have hL : Load w imageMap ⟨"-"⟩ = Run.map stream.NewStream (readStdin w) := by
    rw [Load_eq]
    simp [hu, hs]
  refine ⟨hL, ?_⟩
  rw [hL, Run.map_trace, readStdin_trace]

/-- C3 as stated fails: in the registry that `init` builds in the sample
environment `-` is a key, yet `Load` of `-` reads standard input and does not
run `loadAsset`. -/
theorem Load_key_not_always_loadAsset :
    (init sampleEnv).result = .ok sampleMap ∧
    "-" ∈ sampleMap.keys ∧
    (Load sampleEnv sampleMap ⟨"-"⟩).trace = [Event.stdinRead] ∧
    (loadAsset sampleEnv sampleMap "-").trace = [Event.embedRead "images/-.jpg"] ∧
    Load sampleEnv sampleMap ⟨"-"⟩ ≠
      Run.map stream.NewStream (loadAsset sampleEnv sampleMap "-") := by
  refine ⟨by decide, by decide, by decide, by decide, ?_⟩
  intro h
  have ht := congrArg Run.trace h
  rw [Run.map_trace] at ht
  revert ht
  decide

/-- C3, amended: for every key `id` of the registry that does not begin with
`http` and is not `-`, and every environment (also one where a local file
named `id` exists), `Load` runs exactly `loadAsset id` (wrapped by
`NewStream`): its only operation is the embedded read of the mapped path. -/
theorem Load_key_is_loadAsset (w : Env) (imageMap : ImageMap) (id : String)
    (hu : ¬ ∃ t : String, id = "http" ++ t) (hs : id ≠ "-")
    (hk : id ∈ imageMap.keys) :
    Load w imageMap ⟨id⟩ = Run.map stream.NewStream (loadAsset w imageMap id) ∧
    (Load w imageMap ⟨id⟩).trace = [Event.embedRead ((imageMap.get id).getD "")] := by
  have h1 := isURL_false_of_not_http id hu
  have h2 := isStdin_false_of_ne id hs
  have h3 : isAsset imageMap id = true := (isAsset_iff imageMap id).mpr hk
  have hL : Load w imageMap ⟨id⟩ = Run.map stream.NewStream (loadAsset w imageMap id) := by
    rw [Load_eq]
    simp [h1, h2, h3]
  refine ⟨hL, ?_⟩
  rw [hL, Run.map_trace, loadAsset_trace]

/-- C3 amended, at the sample environment and the key `aliens`, where a local
file `aliens` exists as well: the embedded image is returned, not the file. -/
theorem Load_key_is_loadAsset_witness :
    (¬ ∃ t : String, "aliens" = "http" ++ t) ∧ "aliens" ≠ "-" ∧
    "aliens" ∈ sampleMap.keys ∧ sampleEnv.Stat "aliens" = true ∧
    (Load sampleEnv sampleMap ⟨"aliens"⟩).trace = [Event.embedRead "images/aliens.jpg"] ∧
    (Load sampleEnv sampleMap ⟨"aliens"⟩).result = .ok ⟨ascii "ALIENS"⟩ :=
  have hu : ¬ ∃ t : String, "aliens" = "http" ++ t := fun h =>
    absurd ((isURL_iff "aliens").mpr h) (by decide)
  ⟨hu, by decide, by decide, by decide,
   (Load_key_is_loadAsset sampleEnv sampleMap "aliens" hu (by decide) (by decide)).2,
   by decide⟩

theorem readFile_ok (w : Env) (p q : String) (h : w.Expand p = .ok q) :
    readFile w p =
      ⟨[Event.expand p, Event.fileRead q],
       match w.ReadFile q with
       | .ok st => .ok st
       | .error err => .error ⟨"Could not read local file", some err⟩⟩ := by
  unfold readFile
  simp only [Run.bind_eq, Run.pure_eq, Run.bind, Run.pure, perform, output.OnError, h]
  cases w.ReadFile q <;> simp

theorem Load_local (w : Env) (imageMap : ImageMap) (p : String)
    (hu : ¬ ∃ t : String, p = "http" ++ t) (hs : p ≠ "-") (hk : p ∉ imageMap.keys) :
    Load w imageMap ⟨p⟩ =
      Run.map stream.NewStream (Run.bind (isLocalFile w p) (fun b =>
        if b then readFile w p else output.Error "Image not recognised")) := by
  have h1 := isURL_false_of_not_http p hu
  have h2 := isStdin_false_of_ne p hs
  have h3 := isAsset_false_of_not_key imageMap p hk
  rw [Load_eq]
  simp [h1, h2, h3]

/-- C4: for every reference `p` that does not begin with `http`, is not `-`, is
not a key of the registry, and whose expansion succeeds with a path `q` at
which an entry exists, the classifier `isLocalFile` answers true and `Load`
runs `readFile p` after it (wrapped by `NewStream`): the operations are the
expansion and stat of the classifier followed by those of `readFile`, and the
result is that of `readFile`. -/
theorem Load_existing_path_is_readFile (w : Env) (imageMap : ImageMap) (p q : String)
    (hu : ¬ ∃ t : String, p = "http" ++ t) (hs : p ≠ "-") (hk : p ∉ imageMap.keys)
    (he : w.Expand p = .ok q) (hx : w.Stat q = true) :
    (isLocalFile w p).result = .ok true ∧
    (Load w imageMap ⟨p⟩).trace =
      [Event.expand p, Event.stat q] ++ (readFile w p).trace ∧
    (Load w imageMap ⟨p⟩).result = (readFile w p).result.map stream.NewStream ∧
    (Load w imageMap ⟨p⟩).trace =
      [Event.expand p, Event.stat q, Event.expand p, Event.fileRead q] := by
  have hL := Load_local w imageMap p hu hs hk
  have hi := isLocalFile_ok w p q he
  have hr := readFile_ok w p q he
  rw [hx] at hi
  have hb : Run.bind (isLocalFile w p) (fun b =>
        if b then readFile w p else (output.Error "Image not recognised" : Run Bytes)) =
      ⟨[Event.expand p, Event.stat q] ++ (readFile w p).trace, (readFile w p).result⟩ := by
    rw [hi]
    simp [Run.bind]
  rw [hL, hb, Run.map_trace, Run.map_result]
  refine ⟨by rw [hi], rfl, rfl, ?_⟩
  rw [hr]
  rfl

/-- C4, at the sample environment and the reference `~/photos/cat.png`: the
content of `/home/meme/photos/cat.png` is returned. -/
theorem Load_existing_path_is_readFile_witness :
    (¬ ∃ t : String, "~/photos/cat.png" = "http" ++ t) ∧ "~/photos/cat.png" ≠ "-" ∧
    "~/photos/cat.png" ∉ sampleMap.keys ∧
    sampleEnv.Expand "~/photos/cat.png" = .ok "/home/meme/photos/cat.png" ∧
    sampleEnv.Stat "/home/meme/photos/cat.png" = true ∧
    (Load sampleEnv sampleMap ⟨"~/photos/cat.png"⟩).trace =
      [Event.expand "~/photos/cat.png", Event.stat "/home/meme/photos/cat.png",
       Event.expand "~/photos/cat.png", Event.fileRead "/home/meme/photos/cat.png"] ∧
    (Load sampleEnv sampleMap ⟨"~/photos/cat.png"⟩).result = .ok ⟨ascii "CATDATA"⟩ :=
  have hu : ¬ ∃ t : String, "~/photos/cat.png" = "http" ++ t := fun h =>
    absurd ((isURL_iff "~/photos/cat.png").mpr h) (by decide)
  ⟨hu, by decide, by decide, by decide, by decide,
   (Load_existing_path_is_readFile sampleEnv sampleMap "~/photos/cat.png"
      "/home/meme/photos/cat.png" hu (by decide) (by decide) (by decide) (by decide)).2.2.2,
   by decide⟩

/-- C5 as stated fails: in the sample environment the reference `~bob/cat.png`
does not begin with `http`, is not `-`, is not a key of the registry, and no
filesystem entry is found at an expanded path (its expansion fails), yet
`Load` does not fail with `Image not recognised`: it halts with
`Could not expand path`. -/
theorem Load_no_match_not_always_unrecognised :
    (¬ ∃ t : String, "~bob/cat.png" = "http" ++ t) ∧ "~bob/cat.png" ≠ "-" ∧
    "~bob/cat.png" ∉ sampleMap.keys ∧
    (∀ q, sampleEnv.Expand "~bob/cat.png" = .ok q → sampleEnv.Stat q = false) ∧
    (Load sampleEnv sampleMap ⟨"~bob/cat.png"⟩).result ≠
      .error ⟨"Image not recognised", none⟩ ∧
    (Load sampleEnv sampleMap ⟨"~bob/cat.png"⟩).result =
      .error ⟨"Could not expand path", some "cannot expand user-specific home dir"⟩ := by
  refine ⟨?_, by decide, by decide, ?_, by decide, by decide⟩
  · exact fun h => absurd ((isURL_iff "~bob/cat.png").mpr h) (by decide)
  · intro q hq
    have he : sampleEnv.Expand "~bob/cat.png" =
        .error "cannot expand user-specific home dir" := by decide
    rw [he] at hq
    cases hq

/-- C5, amended: for every reference `p` that does not begin with `http`, is
not `-`, is not a key of the registry, and whose expansion succeeds with a
path `q` at which no entry exists, `Load` fails with `Image not recognised`
after the expansion and the stat alone: no GET, no stdin read, no file read
and no embedded read. -/
theorem Load_no_match_is_unrecognised (w : Env) (imageMap : ImageMap) (p q : String)
    (hu : ¬ ∃ t : String, p = "http" ++ t) (hs : p ≠ "-") (hk : p ∉ imageMap.keys)
    (he : w.Expand p = .ok q) (hx : w.Stat q = false) :
    (Load w imageMap ⟨p⟩).result = .error ⟨"Image not recognised", none⟩ ∧
    (Load w imageMap ⟨p⟩).trace = [Event.expand p, Event.stat q] ∧
    (∀ e ∈ (Load w imageMap ⟨p⟩).trace, e.isFetch = false) := by
  have hL := Load_local w imageMap p hu hs hk
  have hi := isLocalFile_ok w p q he
  rw [hx] at hi
  have hb : Run.bind (isLocalFile w p) (fun b =>
        if b then readFile w p else (output.Error "Image not recognised" : Run Bytes)) =
      ⟨[Event.expand p, Event.stat q], .error ⟨"Image not recognised", none⟩⟩ := by
    rw [hi]
    simp [Run.bind, output.Error]
  rw [hL, hb, Run.map_trace, Run.map_result]
  refine ⟨rfl, rfl, ?_⟩
  intro e hm
  simp only [List.mem_cons, List.mem_singleton, List.not_mem_nil, or_false] at hm
  rcases hm with rfl | rfl <;> rfl

/-- C5 amended, at the sample environment and the reference `nothing`. -/
theorem Load_no_match_is_unrecognised_witness :
    (¬ ∃ t : String, "nothing" = "http" ++ t) ∧ "nothing" ≠ "-" ∧
    "nothing" ∉ sampleMap.keys ∧ sampleEnv.Expand "nothing" = .ok "nothing" ∧
    sampleEnv.Stat "nothing" = false ∧
    (Load sampleEnv sampleMap ⟨"nothing"⟩).result = .error ⟨"Image not recognised", none⟩ ∧
    (Load sampleEnv sampleMap ⟨"nothing"⟩).trace =
      [Event.expand "nothing", Event.stat "nothing"] :=
  have hu : ¬ ∃ t : String, "nothing" = "http" ++ t := fun h =>
    absurd ((isURL_iff "nothing").mpr h) (by decide)
  have h := Load_no_match_is_unrecognised sampleEnv sampleMap "nothing" "nothing"
    hu (by decide) (by decide) (by decide) (by decide)
  ⟨hu, by decide, by decide, by decide, by decide, h.1, h.2.1⟩

/-- C10: for every reference `p` that does not begin with `http`, is not `-`,
is not a key of the registry, and whose expansion fails with an error `err`,
the classifier `isLocalFile` itself halts with `Could not expand path`, and so
does `Load`, right after the expansion; the failure is not
`Image not recognised`. -/
theorem Load_expand_failure_halts (w : Env) (imageMap : ImageMap) (p err : String)
    (hu : ¬ ∃ t : String, p = "http" ++ t) (hs : p ≠ "-") (hk : p ∉ imageMap.keys)
    (he : w.Expand p = .error err) :
    (isLocalFile w p).result = .error ⟨"Could not expand path", some err⟩ ∧
    (Load w imageMap ⟨p⟩).result = .error ⟨"Could not expand path", some err⟩ ∧
    (Load w imageMap ⟨p⟩).trace = [Event.expand p] ∧
    (Load w imageMap ⟨p⟩).result ≠ .error ⟨"Image not recognised", none⟩ := by
  have hL := Load_local w imageMap p hu hs hk
  have hi := isLocalFile_error w p err he
  have hb : Run.bind (isLocalFile w p) (fun b =>
        if b then readFile w p else (output.Error "Image not recognised" : Run Bytes)) =
      ⟨[Event.expand p], .error ⟨"Could not expand path", some err⟩⟩ := by
    rw [hi]
    simp [Run.bind]
  rw [hL, hb, Run.map_trace, Run.map_result]
  refine ⟨by rw [hi], rfl, rfl, ?_⟩
  intro h
  simp [Except.map] at h

/-- C10, at the sample environment and the reference `~bob/cat.png`. -/
theorem Load_expand_failure_halts_witness :
    (¬ ∃ t : String, "~bob/cat.png" = "http" ++ t) ∧ "~bob/cat.png" ≠ "-" ∧
    "~bob/cat.png" ∉ sampleMap.keys ∧
    sampleEnv.Expand "~bob/cat.png" = .error "cannot expand user-specific home dir" ∧
    (Load sampleEnv sampleMap ⟨"~bob/cat.png"⟩).result =
      .error ⟨"Could not expand path", some "cannot expand user-specific home dir"⟩ ∧
    (Load sampleEnv sampleMap ⟨"~bob/cat.png"⟩).trace = [Event.expand "~bob/cat.png"] :=
  have hu : ¬ ∃ t : String, "~bob/cat.png" = "http" ++ t := fun h =>
    absurd ((isURL_iff "~bob/cat.png").mpr h) (by decide)
  have h := Load_expand_failure_halts sampleEnv sampleMap "~bob/cat.png"
    "cannot expand user-specific home dir" hu (by decide) (by decide) (by decide)
  ⟨hu, by decide, by decide, by decide, h.2.1, h.2.2.1⟩

/-! ### The fetch functions -/

theorem downloadURL_non200 (w : Env) (url : String) (res : Response)
    (hg : w.Get url = .ok res) (hs : res.StatusCode ≠ 200) :
    downloadURL w url = ⟨[Event.httpGet url], .error ⟨"Could not access URL", none⟩⟩ := by
  unfold downloadURL
  simp [Run.bind_eq, Run.pure_eq, Run.bind, Run.pure, perform, output.OnError,
    output.Error, hg, hs]

/-- C6: for every URL whose GET completes without a transport error and
returns a status code other than 200, `downloadURL` halts with
`Could not access URL`, returns no bytes, does not read the response body, and
has issued exactly one GET. -/
theorem downloadURL_non200_unreachable (w : Env) (url : String) (res : Response)
    (hg : w.Get url = .ok res) (hs : res.StatusCode ≠ 200) :
    (downloadURL w url).result = .error ⟨"Could not access URL", none⟩ ∧
    (∀ st, (downloadURL w url).result ≠ .ok st) ∧
    Event.bodyRead url ∉ (downloadURL w url).trace ∧
    (downloadURL w url).trace = [Event.httpGet url] ∧
    getCount (downloadURL w url).trace = 1 := by
  rw [downloadURL_non200 w url res hg hs]
  refine ⟨rfl, ?_, ?_, rfl, ?_⟩
  · intro st h
    cases h
  · simp
  · simp [getCount]

/-- C6, at the sample environment and a URL answered with status 404. -/
theorem downloadURL_non200_unreachable_witness :
    sampleEnv.Get "https://example.com/missing.png" = .ok ⟨404, .ok (ascii "Not Found")⟩ ∧
    (404 : Int) ≠ 200 ∧
    (downloadURL sampleEnv "https://example.com/missing.png").result =
      .error ⟨"Could not access URL", none⟩ ∧
    getCount (downloadURL sampleEnv "https://example.com/missing.png").trace = 1 :=
  have h := downloadURL_non200_unreachable sampleEnv "https://example.com/missing.png"
    ⟨404, .ok (ascii "Not Found")⟩ (by decide) (by decide)
  ⟨by decide, by decide, h.1, h.2.2.2.2⟩

/-- C7 as stated fails: in the registry that `init` builds in the sample
environment `empty` is a key, the embedded read of its mapped path succeeds,
and `loadAsset` returns the stored bytes, which are empty. -/
theorem loadAsset_bytes_can_be_empty :
    (init sampleEnv).result = .ok sampleMap ∧
    "empty" ∈ sampleMap.keys ∧
    sampleMap.get "empty" = some "images/empty.jpg" ∧
    sampleEnv.EmbedReadFile "images/empty.jpg" = .ok [] ∧
    (loadAsset sampleEnv sampleMap "empty").result = .ok [] := by
  decide

/-- C7, amended: for every id that the registry maps to a path, when the
embedded read of that path succeeds with bytes `st`, `loadAsset id` performs
that one embedded read and returns exactly `st` (so non-empty bytes whenever
the stored bytes are non-empty). -/
theorem loadAsset_returns_stored (w : Env) (imageMap : ImageMap) (id path : String)
    (st : Bytes) (hk : imageMap.get id = some path)
    (hr : w.EmbedReadFile path = .ok st) :
    (loadAsset w imageMap id).result = .ok st ∧
    (loadAsset w imageMap id).trace = [Event.embedRead path] ∧
    (st ≠ [] → ∃ b, (loadAsset w imageMap id).result = .ok b ∧ b ≠ []) := by
  have h : loadAsset w imageMap id = ⟨[Event.embedRead path], .ok st⟩ := by
    unfold loadAsset
    simp [Run.bind_eq, Run.pure_eq, Run.bind, Run.pure, perform, output.OnError, hk, hr]
  rw [h]
  exact ⟨rfl, rfl, fun hne => ⟨st, rfl, hne⟩⟩

/-- C7 amended, at the sample environment and the key `aliens`. -/
theorem loadAsset_returns_stored_witness :
    sampleMap.get "aliens" = some "images/aliens.jpg" ∧
    sampleEnv.EmbedReadFile "images/aliens.jpg" = .ok (ascii "ALIENS") ∧
    (loadAsset sampleEnv sampleMap "aliens").result = .ok (ascii "ALIENS") :=
  ⟨by decide, by decide,
   (loadAsset_returns_stored sampleEnv sampleMap "aliens" "images/aliens.jpg"
      (ascii "ALIENS") (by decide) (by decide)).1⟩

/-- C9: every successful fetch returns exactly the bytes of its source:
`downloadURL` on a 200 response whose body reads as `b` returns `b`,
`readStdin` with standard input `c` returns `c`, and `readFile` on a path whose
expansion names a file that reads as `f` returns `f`. -/
theorem fetch_returns_source_bytes :
    (∀ (w : Env) (url : String) (res : Response) (b : Bytes),
      w.Get url = .ok res → res.StatusCode = 200 → res.Body = .ok b →
      (downloadURL w url).result = .ok b) ∧
    (∀ (w : Env) (c : Bytes), w.Stdin = .ok c → (readStdin w).result = .ok c) ∧
    (∀ (w : Env) (p q : String) (f : Bytes),
      w.Expand p = .ok q → w.ReadFile q = .ok f → (readFile w p).result = .ok f) := by
  refine ⟨?_, ?_, ?_⟩
  · intro w url res b hg hs hb
    unfold downloadURL
    simp [Run.bind_eq, Run.pure_eq, Run.bind, Run.pure, perform, output.OnError, hg, hs, hb]
  · intro w c hc
    unfold readStdin
    simp [Run.bind_eq, Run.pure_eq, Run.bind, Run.pure, perform, output.OnError, hc]
  · intro w p q f he hf
    rw [readFile_ok w p q he, hf]

/-- C9, at the sample environment: the URL `https://example.com/img.png`
yields `JPEGDATA`, standard input yields `PNGDATA`, and `~/photos/cat.png`
yields the content of `/home/meme/photos/cat.png`. -/
theorem fetch_returns_source_bytes_witness :
    (downloadURL sampleEnv "https://example.com/img.png").result = .ok (ascii "JPEGDATA") ∧
    (readStdin sampleEnv).result = .ok (ascii "PNGDATA") ∧
    (readFile sampleEnv "~/photos/cat.png").result = .ok (ascii "CATDATA") :=
  ⟨fetch_returns_source_bytes.1 sampleEnv "https://example.com/img.png"
      ⟨200, .ok (ascii "JPEGDATA")⟩ (ascii "JPEGDATA") (by decide) (by decide) (by decide),
   fetch_returns_source_bytes.2.1 sampleEnv (ascii "PNGDATA") (by decide),
   fetch_returns_source_bytes.2.2 sampleEnv "~/photos/cat.png" "/home/meme/photos/cat.png"
      (ascii "CATDATA") (by decide) (by decide)⟩

/-! ### The registry built by `init` -/

theorem ImageMap.get_filter_ne (m : ImageMap) (id k : String) (h : k ≠ id) :
    ImageMap.get (m.filter (fun e => !(e.1 == id))) k = ImageMap.get m k := by
  unfold ImageMap.get
  induction m with
  | nil => rfl
  | cons e rest ih =>
    by_cases h1 : e.1 = id
    · have h2 : ¬ e.1 = k := fun hh => h (hh.symm.trans h1)
      have hb : (!(e.1 == id)) = false := by simp [h1]
      have hk : (e.1 == k) = false := by simpa using h2
      simp only [List.filter_cons, List.find?_cons, hb, hk]
      exact ih
    · have hb : (!(e.1 == id)) = true := by simp [h1]
      by_cases h3 : e.1 = k
      · have hk : (e.1 == k) = true := by simpa using h3
        simp only [List.filter_cons, List.find?_cons, hb, hk, if_true]
      · have hk : (e.1 == k) = false := by simpa using h3
        simp only [List.filter_cons, List.find?_cons, hb, hk, if_true]
        exact ih

theorem ImageMap.get_set (m : ImageMap) (id v k : String) :
    (m.set id v).get k = if k = id then some v else m.get k := by
  by_cases h : k = id
  · subst h
    simp [ImageMap.set, ImageMap.get, List.find?]
  · have h2 : ¬ id = k := fun hh => h hh.symm
    have h3 := ImageMap.get_filter_ne m id k h
    unfold ImageMap.get at h3
    simp only [ImageMap.set, ImageMap.get, List.find?, h, if_false]
    have h4 : (id == k) = false := by simpa using h2
    simp only [h4]
    exact h3

theorem ImageMap.mem_keys_set (m : ImageMap) (id v k : String) :
    k ∈ (m.set id v).keys ↔ k = id ∨ k ∈ m.keys := by
  rw [← isAsset_iff, ← isAsset_iff]
  unfold isAsset
  rw [ImageMap.get_set]
  by_cases h : k = id
  · simp [h]
  · simp [h]

theorem foldl_set_keys (idOf pathOf : String → String) (images : List String)
    (m0 : ImageMap) (k : String) :
    k ∈ (images.foldl (fun imageMap image => imageMap.set (idOf image) (pathOf image))
          m0).keys ↔
      k ∈ m0.keys ∨ ∃ image ∈ images, k = idOf image := by
  induction images generalizing m0 with
  | nil => simp
  | cons i rest ih =>
    rw [List.foldl_cons, ih, ImageMap.mem_keys_set]
    constructor
    · rintro ((h | h) | ⟨image, hm, h⟩)
      · exact Or.inr ⟨i, List.mem_cons_self _ _, h⟩
      · exact Or.inl h
      · exact Or.inr ⟨image, List.mem_cons_of_mem _ hm, h⟩
    · rintro (h | ⟨image, hm, h⟩)
      · exact Or.inl (Or.inr h)
      · rcases List.mem_cons.mp hm with rfl | hm
        · exact Or.inl (Or.inl h)
        · exact Or.inr ⟨image, hm, h⟩

theorem foldl_set_get (idOf pathOf : String → String) (images : List String)
    (m0 : ImageMap) (k v : String)
    (h : (images.foldl (fun imageMap image => imageMap.set (idOf image) (pathOf image))
          m0).get k = some v) :
    m0.get k = some v ∨ ∃ image ∈ images, idOf image = k ∧ v = pathOf image := by
  induction images generalizing m0 with
  | nil => exact Or.inl h
  | cons i rest ih =>
    rw [List.foldl_cons] at h
    rcases ih _ h with h1 | ⟨image, hm, h1⟩
    · rw [ImageMap.get_set] at h1
      by_cases hk : k = idOf i
      · rw [if_pos hk] at h1
        exact Or.inr ⟨i, List.mem_cons_self _ _, hk.symm, (Option.some.inj h1).symm⟩
      · rw [if_neg hk] at h1
        exact Or.inl h1
    · exact Or.inr ⟨image, List.mem_cons_of_mem _ hm, h1⟩

theorem init_ok (w : Env) (images : List String)
    (h : w.ReadDir w.ImagePath = .ok images) :
    (init w).result = .ok (images.foldl
      (fun imageMap image =>
        imageMap.set (strings.TrimSuffix (w.Base image) w.ImageExtension)
          (w.Join w.ImagePath image))
      []) := by
  unfold init
  simp [Run.bind_eq, Run.pure_eq, Run.bind, Run.pure, perform, output.OnError, h]

/-- C8: when the catalog listing succeeds with entries `images`, `init` returns
a registry whose keys are exactly the ids obtained by stripping the image
extension from the base name of each entry, and every key is mapped to the
image directory joined with the name of an entry from which that id is
derived. -/
theorem init_registry (w : Env) (images : List String)
    (h : w.ReadDir w.ImagePath = .ok images) :
    ∃ m : ImageMap, (init w).result = .ok m ∧
      (∀ k, k ∈ m.keys ↔
        ∃ image ∈ images, k = strings.TrimSuffix (w.Base image) w.ImageExtension) ∧
      (∀ k, k ∈ m.keys →
        ∃ image ∈ images, strings.TrimSuffix (w.Base image) w.ImageExtension = k ∧
          m.get k = some (w.Join w.ImagePath image)) := by
  refine ⟨_, init_ok w images h, ?_, ?_⟩
  · intro k
    rw [foldl_set_keys (fun image => strings.TrimSuffix (w.Base image) w.ImageExtension)
      (fun image => w.Join w.ImagePath image) images [] k]
    simp [ImageMap.keys]
  · intro k hk
    have ha := (isAsset_iff _ k).mpr hk
    unfold isAsset at ha
    obtain ⟨v, hv⟩ := Option.isSome_iff_exists.mp ha
    rcases foldl_set_get (fun image => strings.TrimSuffix (w.Base image) w.ImageExtension)
      (fun image => w.Join w.ImagePath image) images [] k v hv with h1 | ⟨image, hm, h1, h2⟩
    · simp [ImageMap.get] at h1
    · exact ⟨image, hm, h1, by rw [hv, h2]⟩

/-- C8, at the sample environment: the listing `-.jpg`, `aliens.jpg`,
`empty.jpg` of `images` gives the keys `empty`, `aliens`, `-`, each mapped to
its file under `images`. -/
theorem init_registry_witness :
    sampleEnv.ReadDir sampleEnv.ImagePath = .ok ["-.jpg", "aliens.jpg", "empty.jpg"] ∧
    (∃ m : ImageMap, (init sampleEnv).result = .ok m ∧
      (∀ k, k ∈ m.keys ↔ ∃ image ∈ ["-.jpg", "aliens.jpg", "empty.jpg"],
        k = strings.TrimSuffix (sampleEnv.Base image) sampleEnv.ImageExtension) ∧
      (∀ k, k ∈ m.keys → ∃ image ∈ ["-.jpg", "aliens.jpg", "empty.jpg"],
        strings.TrimSuffix (sampleEnv.Base image) sampleEnv.ImageExtension = k ∧
          m.get k = some (sampleEnv.Join sampleEnv.ImagePath image))) ∧
    (init sampleEnv).result = .ok sampleMap ∧
    sampleMap.keys = ["empty", "aliens", "-"] :=
  ⟨by decide, init_registry sampleEnv ["-.jpg", "aliens.jpg", "empty.jpg"] (by decide),
   by decide, by decide⟩

end Meme
